import Mathlib

/-!
# Verification of the vagents graph-execution core

A shallow embedding, in Lean 4, of the core of the `vagents` runtime:

* `vagents/executor/node.py` — the step/node data model (`ActionNode`,
  `ConditionNode`, `BreakNode`, `ReturnNode`, `YieldNode`);
* `vagents/executor/optimizers.py` — the await-sequence fusion optimizer
  (`optimize_await_sequences`, `apply_optimizations`);
* `vagents/executor/executor.py` — the graph executor (`GraphExecutor`);
* `vagents/core/executor.py` — the priority task executor (`LMExecutor`);
* `vagents/executor/scheduler.py` — the request scheduler (`VScheduler`).

Python object-graph pointers are modelled by an inductive tree (`None`
successors become the `Node.nil` sentinel; cyclic graphs are represented by
their finite unfoldings, which is all the optimizer and the claims below
traverse).  Python dictionaries used as variable environments become
functions `String → Option (PVal V)`, with `dict.copy()` modelled by value
snapshotting.  Host-language facilities (`exec`/`eval` of fragment text,
the asyncio event loop driven inside a step) are modelled as an explicit
evaluation oracle `PyEval`, since their behaviour is outside this code
base; every structural decision made by the embedded code itself (regex
matching, control flow, environment threading, queue ordering) is modelled
directly from the source.
-/

namespace Vagents

/-! ## Strings as character lists

Source fragments are Python `str` values.  We model them as `List Char`
(`Str`), with helpers mirroring the Python string operations the code
uses: `str.strip()` and `", ".join(...)`. -/

/-- Python source text, as a list of characters. -/
abbrev Str := List Char

/-- Conversion from a Lean string literal. -/
def str (s : String) : Str := s.toList

/-- Python `\w` (ASCII): letters, digits, underscore. -/
def isWordChar (c : Char) : Bool := c.isAlphanum || c = '_'

/-- Python `\s` (ASCII): space, tab, newline, carriage return, form feed,
vertical tab. -/
def isPySpace (c : Char) : Bool :=
  c = ' ' || c = '\t' || c = '\n' || c = '\r' || c = '\x0b' || c = '\x0c'

/-- Python `str.strip()`: remove leading and trailing whitespace. -/
def pyStrip (s : Str) : Str :=
  ((s.dropWhile isPySpace).reverse.dropWhile isPySpace).reverse

/-- Python `", ".join(parts)`. -/
def joinComma : List Str → Str
  | [] => []
  | [x] => x
  | x :: xs => x ++ str ", " ++ joinComma xs

/-! ## The regex used by the optimizer

`optimize_await_sequences` and `ActionNode.execute` match fragments against
the Python regex

    re.match(r"(\w+)(?:\s*:\s*\w+)?\s*=\s*await\s+(.+)", source)

i.e. an anchored-at-start match of: a bound name, an optional type
annotation, `=`, the keyword `await`, and a non-empty expression (`.` does
not match newline).  The implementation below is a direct deterministic
rendering of that pattern; the character classes of adjacent pieces are
disjoint, so greedy matching needs no backtracking except in `\s+(.+)`
(handled in `findExprStart`) and in the optional annotation group (handled
in `afterAnnot`: if a `:` follows the name, the annotation must parse,
because the no-annotation alternative would then need `=` where the `:`
stands). -/

/-- Skip the optional `(?:\s*:\s*\w+)?` annotation group after the bound
name.  Returns the remaining input on success, `none` when the whole
match is doomed (a `:` follows but no annotation name does). -/
def afterAnnot (r : Str) : Option Str :=
  match r.dropWhile isPySpace with
  | ':' :: r2 =>
      let r3 := r2.dropWhile isPySpace
      let w := r3.takeWhile isWordChar
      if w.isEmpty then none else some (r3.dropWhile isWordChar)
  | _ => some r

/-- Match `\s*=\s*await`, returning the input after the literal `await`. -/
def afterEqAwait (r : Str) : Option Str :=
  match r.dropWhile isPySpace with
  | '=' :: r2 =>
      match r2.dropWhile isPySpace with
      | 'a' :: 'w' :: 'a' :: 'i' :: 't' :: r3 => some r3
      | _ => none
  | _ => none

/-- The capture of `(.+)` starting at a position: the maximal run of
non-newline characters. -/
def exprCapture (r : Str) : Str := r.takeWhile (fun c => c != '\n')

/-- Match `\s+(.+)` after `await`: the greedy `\s+` tries run lengths from
`n` downward (backtracking), and `(.+)` requires one character that is not
a newline at the position where `\s+` stops. -/
def findExprStart (r : Str) : Nat → Option Str
  | 0 => none
  | n + 1 =>
      match r.drop (n + 1) with
      | c :: rest => if c != '\n' then some (exprCapture (c :: rest)) else findExprStart r n
      | [] => findExprStart r n

/-- `re.match(r"(\w+)(?:\s*:\s*\w+)?\s*=\s*await\s+(.+)", s)`, returning
the two captured groups (bound name, await-ed expression). -/
def matchAwaitAssign (s : Str) : Option (Str × Str) :=
  let var := s.takeWhile isWordChar
  if var.isEmpty then none
  else
    match afterAnnot (s.dropWhile isWordChar) with
    | none => none
    | some r =>
      match afterEqAwait r with
      | none => none
      | some r3 =>
        match findExprStart r3 ((r3.takeWhile isPySpace).length) with
        | none => none
        | some expr => some (var, expr)

/-! ## The node model (`vagents/executor/node.py`)

Python's `None` successor pointer is the `Node.nil` sentinel; a field of
type `Node` therefore corresponds to a Python attribute that holds either
a node or `None`.  `ActionNode.__init__` and `YieldNode.__init__` strip
their source fragment; the `source` stored in the constructors below is
the already-stripped text, and the smart constructors `mkAction` /
`mkYield` apply the strip exactly as `__init__` does.  Node identifiers
(`Node._id_counter`) play no role in any behaviour modelled here and are
omitted; equality of nodes is structural. -/

inductive Node where
  /-- Python `None` in a successor position (absent node). -/
  | nil : Node
  /-- `ActionNode(source, next)` (with `source` already stripped). -/
  | action (source : Str) (next : Node) : Node
  /-- `ConditionNode(test_source, true_next, false_next)`. -/
  | condition (test : Str) (trueNext falseNext : Node) : Node
  /-- `BreakNode(target)`: a direct jump. -/
  | brk (target : Node) : Node
  /-- `ReturnNode(value_source)`: terminal, optional return fragment. -/
  | ret (value : Option Str) : Node
  /-- `YieldNode(yield_expression_source, next)` (source already stripped). -/
  | yld (source : Str) (next : Node) : Node
deriving DecidableEq, Repr

/-- `ActionNode.__init__`: `self.source = source.strip()`. -/
def mkAction (source : Str) (next : Node) : Node := .action (pyStrip source) next

/-- `YieldNode.__init__`: `self.yield_expression_source = source.strip()`. -/
def mkYield (source : Str) (next : Node) : Node := .yld (pyStrip source) next

/-- The step graph: holds the entry node (`Node.nil` for an empty graph).
The `Graph` class itself (`vagents/executor/graph.py`) is a plain holder
of `entry` whose `optimize` method applies `apply_optimizations`; this is
visible from its uses in `executor.py` and `optimizers.py`. -/
structure Graph where
  entry : Node
deriving DecidableEq, Repr

/-! ## The fusion optimizer (`vagents/executor/optimizers.py`) -/

/-- The scan loop of `optimize_await_sequences`: starting from a node,
collect the run of consecutive `ActionNode`s whose source matches
`matchAwaitAssign`, returning the captured `(var, expr)` pairs in order
together with the first node that stops the scan (a non-`ActionNode`,
`None`, or an `ActionNode` whose source does not match). -/
def collectSeq : Node → List (Str × Str) × Node
  | .action src next =>
      match matchAwaitAssign src with
      | some (var, expr) =>
          let (rest, stop) := collectSeq next
          ((var, expr) :: rest, stop)
      | none => ([], .action src next)
  | n => ([], n)

/-- The fused fragment built by `optimize_await_sequences`: an
`import asyncio` line, then a line gathering all captured expressions
concurrently into `__results`, then a line tuple-binding the captured
names to `__results` — the expressions and bound names joined by `", "`
in original order. -/
def combinedSrc (seq : List (Str × Str)) : Str :=
  str "import asyncio\n__results = await asyncio.gather("
    ++ joinComma (seq.map Prod.snd)
    ++ str ")\n"
    ++ joinComma (seq.map Prod.fst)
    ++ str " = __results"

/-- `optimize_await_sequences(graph)`: collect the maximal run of await
assignments from the entry; if the run has length `> 1` and the bound
names are pairwise distinct (`len(set(vars)) == len(seq)`), replace it by
a single fused `ActionNode` whose successor is the scan's stop node;
otherwise return the graph unchanged. -/
def optimize_await_sequences (g : Graph) : Graph :=
  let (seq, cur) := collectSeq g.entry
  let varsSeq := seq.map Prod.fst
  if 1 < seq.length ∧ varsSeq.dedup.length = seq.length then
    { entry := mkAction (combinedSrc seq) cur }
  else
    g

/-- `apply_optimizations(graph)`: apply all registered optimizations (only
`optimize_await_sequences` is registered). -/
def apply_optimizations (g : Graph) : Graph :=
  optimize_await_sequences g

end Vagents

namespace Vagents

/-! ## Characterisation of await runs

`AwaitRun n seq stop` is the specification-side description of the shape
`optimize_await_sequences` scans for: starting at `n`, a (maximal) run of
consecutive `ActionNode`s each matching `name = await expr` (optionally
type-annotated), capturing the `(name, expr)` pairs in order; `stop` is the
first step that does not extend the run (a non-`ActionNode`, the `None`
successor, or an `ActionNode` whose fragment does not match). -/
inductive AwaitRun : Node → List (Str × Str) → Node → Prop
  | stop (n : Node)
      (h : ∀ src next, n = Node.action src next → matchAwaitAssign src = none) :
      AwaitRun n [] n
  | step (src : Str) (next : Node) (var expr : Str) (seq : List (Str × Str)) (stop : Node)
      (h : matchAwaitAssign src = some (var, expr)) (hrest : AwaitRun next seq stop) :
      AwaitRun (Node.action src next) ((var, expr) :: seq) stop

/-- The optimizer's scan loop computes exactly the await run. -/
lemma collectSeq_eq_of_awaitRun {n : Node} {seq : List (Str × Str)} {stop : Node}
    (h : AwaitRun n seq stop) : collectSeq n = (seq, stop) := by
  induction h with
  | stop n h =>
      cases n with
      | action src next => simp [collectSeq, h src next rfl]
      | nil => simp [collectSeq]
      | condition t a b => simp [collectSeq]
      | brk t => simp [collectSeq]
      | ret v => simp [collectSeq]
      | yld s nx => simp [collectSeq]
  | step src next var expr seq stop hm hrest ih =>
      simp [collectSeq, hm, ih]

/-- The fused fragment has no leading or trailing whitespace, so the
`source.strip()` in `ActionNode.__init__` leaves it unchanged. -/
lemma pyStrip_combinedSrc (seq : List (Str × Str)) :
    pyStrip (combinedSrc seq) = combinedSrc seq := by
  unfold pyStrip
  have h1 : (combinedSrc seq).dropWhile isPySpace = combinedSrc seq := rfl
  have h2 : ((combinedSrc seq).reverse.dropWhile isPySpace) = (combinedSrc seq).reverse := by
    unfold combinedSrc
    rw [List.reverse_append]
    rfl
  rw [h1, h2, List.reverse_reverse]

/-- The fused fragment begins with `import asyncio`, which does not match
the await-assignment pattern (after the name `import` the pattern needs
`:` or `=`, but a space and `asyncio` follow). -/
lemma matchAwaitAssign_combinedSrc (seq : List (Str × Str)) :
    matchAwaitAssign (combinedSrc seq) = none := rfl

/-- `len(set(vars)) == len(vars)` holds exactly for duplicate-free runs. -/
lemma dedup_length_iff (l : List Str) : l.dedup.length = l.length ↔ l.Nodup := by
  constructor
  · intro h
    have := List.Sublist.eq_of_length (List.dedup_sublist l) h
    exact List.dedup_eq_self.mp this
  · intro h
    rw [List.dedup_eq_self.mpr h]

/-- **C1.** For every step graph whose entry begins a maximal run
(`AwaitRun`) of consecutive `name = await expr` action steps: if the run
has length ≥ 2 and the bound names are pairwise distinct, `optimize`
replaces the run by exactly one `ActionNode` whose fragment gathers all
captured calls concurrently (`asyncio.gather`, expressions in original
order) and tuple-binds each run variable to its corresponding result in
original order, and whose successor is the first non-matching step;
if the run has length ≤ 1 or a bound name repeats, the graph is returned
untouched (a non-matching entry is the run-length-0 case). -/
theorem optimize_await_sequences_spec (g : Graph) (seq : List (Str × Str)) (stop : Node)
    (h : AwaitRun g.entry seq stop) :
    (2 ≤ seq.length → (seq.map Prod.fst).Nodup →
      optimize_await_sequences g =
        ⟨Node.action
          (str "import asyncio\n__results = await asyncio.gather("
            ++ joinComma (seq.map Prod.snd)
            ++ str ")\n"
            ++ joinComma (seq.map Prod.fst)
            ++ str " = __results") stop⟩)
    ∧ ((seq.length ≤ 1 ∨ ¬ (seq.map Prod.fst).Nodup) →
      optimize_await_sequences g = g) := by
  have hc := collectSeq_eq_of_awaitRun h
  constructor
  · intro hlen hnodup
    have hcond : 1 < seq.length ∧ (seq.map Prod.fst).dedup.length = seq.length := by
      refine ⟨hlen, ?_⟩
      rw [(dedup_length_iff _).mpr hnodup, List.length_map]
    simp only [optimize_await_sequences, hc]
    rw [if_pos hcond]
    rw [mkAction, pyStrip_combinedSrc]
    rfl
  · intro hneg
    have hcond : ¬ (1 < seq.length ∧ (seq.map Prod.fst).dedup.length = seq.length) := by
      intro hc2
      rcases hneg with hlen | hdup
      · omega
      · apply hdup
        have h2 : (seq.map Prod.fst).dedup.length = (seq.map Prod.fst).length := by
          rw [List.length_map]; exact hc2.2
        exact (dedup_length_iff _).mp h2
    simp only [optimize_await_sequences, hc]
    rw [if_neg hcond]

/-- Witness for C1: a three-step run `x/y/z = await f1/f2/f3()` followed by
`return x` fuses to a single gather step whose successor is the return
step; the hypotheses are discharged on this concrete graph. -/
theorem optimize_await_sequences_spec_witness :
    (2:ℕ) ≤ 3 ∧
    optimize_await_sequences
      ⟨.action (str "x = await f1()")
        (.action (str "y = await f2()")
          (.action (str "z = await f3()") (.ret (some (str "x")))))⟩ =
      ⟨.action (str "import asyncio\n__results = await asyncio.gather(f1(), f2(), f3())\nx, y, z = __results")
        (.ret (some (str "x")))⟩ := by
  refine ⟨by norm_num, ?_⟩
  have hrun : AwaitRun
      (Node.action (str "x = await f1()")
        (.action (str "y = await f2()")
          (.action (str "z = await f3()") (.ret (some (str "x"))))))
      [(str "x", str "f1()"), (str "y", str "f2()"), (str "z", str "f3()")]
      (.ret (some (str "x"))) := by
    refine .step _ _ _ _ _ _ (by decide) ?_
    refine .step _ _ _ _ _ _ (by decide) ?_
    refine .step _ _ _ _ _ _ (by decide) ?_
    exact .stop _ (by intro src next h; exact Node.noConfusion h)
  have := (optimize_await_sequences_spec _ _ _ hrun).1 (by norm_num) (by decide)
  simpa using this

end Vagents

namespace Vagents

/-- **C7.** The fusion optimizer is idempotent: a second application of
`optimize` changes neither the entry step's fragment nor any successor
link (the graphs are equal outright, hence indistinguishable by fragment
content and edges).  The same holds for the full optimization pipeline
`apply_optimizations`.  The key fact is that a fused fragment starts with
`import asyncio`, which the await-assignment pattern does not match, so a
second scan collects an empty run. -/
theorem optimize_idempotent (g : Graph) :
    optimize_await_sequences (optimize_await_sequences g) = optimize_await_sequences g ∧
    apply_optimizations (apply_optimizations g) = apply_optimizations g := by
  have main : ∀ g' : Graph,
      optimize_await_sequences (optimize_await_sequences g') = optimize_await_sequences g' := by
    intro g'
    rcases hc : collectSeq g'.entry with ⟨seq, cur⟩
    by_cases hcond : 1 < seq.length ∧ (seq.map Prod.fst).dedup.length = seq.length
    · have h1 : optimize_await_sequences g' = ⟨.action (combinedSrc seq) cur⟩ := by
        simp only [optimize_await_sequences, hc]
        rw [if_pos hcond, mkAction, pyStrip_combinedSrc]
      rw [h1]
      have h2 : collectSeq (Node.action (combinedSrc seq) cur)
          = ([], Node.action (combinedSrc seq) cur) := by
        simp [collectSeq, matchAwaitAssign_combinedSrc]
      simp only [optimize_await_sequences, h2]
      rw [if_neg]
      intro hcc
      simp at hcc
    · have h1 : optimize_await_sequences g' = g' := by
        simp only [optimize_await_sequences, hc]
        rw [if_neg hcond]
      rw [h1]
      exact h1
  exact ⟨main g, main g⟩

end Vagents

namespace Vagents

/-! ## Values, environments and the evaluation oracle

The executor threads Python dictionaries (`dict`) of variable bindings
through node execution.  We model a binding environment as a function
`String → Option (PVal V)`; `dict.copy()` (used once per input) is
snapshotting, which is exact because Python code mutates the copy, never
the original, and the original dict `base_ctx` is not aliased by the copy.

Fragment evaluation (`exec`/`eval` of Python source against the
environment, including the nested-event-loop bridging for `await`
fragments in `ActionNode.execute`) is a host-language facility; it is
modelled by an oracle `PyEval` supplying the value/effect of evaluating a
fragment in an environment.  All claims below hold for every oracle
(or for oracles satisfying explicitly stated frame conditions). -/

/-- A Python runtime value as far as the executor inspects it:
opaque objects, `None`, lists (inspected for truthiness and appended to),
and the literal `{}` stored under `__execution_context__`. -/
inductive PVal (V : Type) where
  | obj (v : V)
  | pynone
  | vlist (xs : List (PVal V))
  | emptydict

/-- A binding environment (a Python dict). -/
abbrev Ctx (V : Type) := String → Option (PVal V)

/-- `d[n] = v`. -/
def ctxSet (ctx : Ctx V) (n : String) (v : PVal V) : Ctx V :=
  fun m => if m = n then some v else ctx m

/-- The empty dict. -/
def emptyCtx : Ctx V := fun _ => none

/-- `d.update(pairs)`: insert in order, overwriting. -/
def ctxUpdate (ctx : Ctx V) : List (String × PVal V) → Ctx V
  | [] => ctx
  | (n, v) :: rest => ctxUpdate (ctxSet ctx n v) rest

/-- `for n, v in pairs: if n not in d: d[n] = v`. -/
def ctxMergeNew (ctx : Ctx V) : List (String × PVal V) → Ctx V
  | [] => ctx
  | (n, v) :: rest => ctxMergeNew (if (ctx n).isSome then ctx else ctxSet ctx n v) rest

/-- The exceptions the modelled code distinguishes.  `nameError` is the
spec's *BindingError* (unresolved name during fragment evaluation);
`stepError` stands for any other exception a fragment raises (the spec's
*StepEvaluationError*). -/
inductive PyErr where
  | nameError (name : String)
  | keyError (key : String)
  | attributeError (msg : String)
  | typeError (msg : String)
  | indexError (msg : String)
  | stepError (msg : String)
  | runtimeError (msg : String)
  | moduleNotFoundError (msg : String)
deriving DecidableEq, Repr

/-- The fragment-evaluation oracle: `eval` of an expression fragment
(returning a value and the possibly mutated environment), `exec` of a
statement fragment (`ActionNode.execute`, including its `await`
bridging — it always moves to `self.next`, so only the environment effect
is visible), and Python truthiness of opaque objects. -/
structure PyEval (V : Type) where
  evalExpr : Str → Ctx V → Except PyErr (PVal V × Ctx V)
  execAction : Str → Ctx V → Except PyErr (Ctx V)
  truthy : V → Bool

/-- Python truthiness of the values the executor tests
(`if branch`, `if current_run_ctx["__yielded_values_stream__"]`). -/
def pvalTruthy (ev : PyEval V) : PVal V → Bool
  | .obj v => ev.truthy v
  | .pynone => false
  | .vlist xs => !xs.isEmpty
  | .emptydict => false

/-- The reserved environment key collecting yielded values. -/
def yieldKey : String := "__yielded_values_stream__"

/-! ## Node execution (`vagents/executor/node.py`) -/

/-- The environment effect of `YieldNode.execute`: evaluate the yield
expression (via the temporary async generator), ensure
`__yielded_values_stream__` exists, and append the yielded value to it
(`AttributeError` if the slot holds a non-list). -/
def yieldUpdate (ev : PyEval V) (src : Str) (ctx : Ctx V) : Except PyErr (Ctx V) := do
  let (v, ctx1) ← ev.evalExpr src ctx
  let ctx2 := if (ctx1 yieldKey).isSome then ctx1 else ctxSet ctx1 yieldKey (.vlist [])
  match ctx2 yieldKey with
  | some (.vlist xs) => pure (ctxSet ctx2 yieldKey (.vlist (xs ++ [v])))
  | _ => throw (.attributeError "append")

/-- `YieldNode.execute(ctx)`: perform the yield effect, then proceed to
`self.next`. -/
def yieldExecute (ev : PyEval V) (src : Str) (next : Node) (ctx : Ctx V) :
    Except PyErr (Ctx V × Node) := do
  let ctx' ← yieldUpdate ev src ctx
  pure (ctx', next)

/-- `BreakNode.execute(ctx)`: `return self.target` (no other effect). -/
def breakExecute (target : Node) (ctx : Ctx V) : Ctx V × Node := (ctx, target)

/-- `ConditionNode.execute(ctx)`: evaluate the test, pick the branch. -/
def conditionExecute (ev : PyEval V) (test : Str) (t f : Node) (ctx : Ctx V) :
    Except PyErr (Ctx V × Node) := do
  let (v, ctx') ← ev.evalExpr test ctx
  pure (ctx', if pvalTruthy ev v then t else f)

/-- The value of a `ReturnNode`'s fragment as `GraphExecutor.run`
evaluates it: `eval(node.code, ctx, ctx) if node.code else None`. -/
def evalReturn (ev : PyEval V) : Option Str → Ctx V → Except PyErr (PVal V × Ctx V)
  | some code, ctx => ev.evalExpr code ctx
  | none, ctx => pure (.pynone, ctx)

/-! ## The graph executor (`vagents/executor/executor.py`) -/

/-- The per-input traversal loop of `GraphExecutor.run`:

    current_node = self.graph.entry
    while current_node:
        if isinstance(current_node, ReturnNode): … break
        current_node = current_node.execute(current_run_ctx)

Returns the final environment together with `some returnValue` when the
loop ended at a `ReturnNode`, or `none` when it fell off the end
(`current_node` became `None`). -/
def traverse (ev : PyEval V) : Node → Ctx V → Except PyErr (Ctx V × Option (PVal V))
  | .nil, ctx => pure (ctx, none)
  | .ret val, ctx => do
      let (v, ctx') ← evalReturn ev val ctx
      pure (ctx', some v)
  | .action src next, ctx => do
      let ctx' ← ev.execAction src ctx
      traverse ev next ctx'
  | .condition test t f, ctx => do
      let (v, ctx') ← ev.evalExpr test ctx
      if pvalTruthy ev v then traverse ev t ctx' else traverse ev f ctx'
  | .brk target, ctx => traverse ev target ctx
  | .yld src next, ctx => do
      let ctx' ← yieldUpdate ev src ctx
      traverse ev next ctx'

/-- `GraphExecutor.__init__`'s base environment:

    base_ctx = {"__builtins__": …, "has_next": has_next}
    if global_context: base_ctx.update(global_context)
    if module_instance:
        vars(instance) merged where not present; base_ctx['self'] = instance
        vars(import_module(instance.__class__.__module__)) merged where
        not present (skipped entirely on ImportError)

The handler instance is summarised by `ModuleInfo`. -/
structure ModuleInfo (V : Type) where
  selfVal : PVal V
  attrs : List (String × PVal V)
  moduleVars : Option (List (String × PVal V))

/-- Build `self.base_ctx` exactly as `GraphExecutor.__init__` does. -/
def buildBaseCtx (builtinsVal hasNextVal : PVal V)
    (globalContext : Option (List (String × PVal V)))
    (moduleInstance : Option (ModuleInfo V)) : Ctx V :=
  let base := ctxSet (ctxSet emptyCtx "__builtins__" builtinsVal) "has_next" hasNextVal
  let base := match globalContext with
    | some gc => ctxUpdate base gc
    | none => base
  match moduleInstance with
  | none => base
  | some mi =>
      let base := ctxMergeNew base mi.attrs
      let base := ctxSet base "self" mi.selfVal
      match mi.moduleVars with
      | some mv => ctxMergeNew base mv
      | none => base

/-- The fresh per-input environment of `GraphExecutor.run`:

    current_run_ctx = self.base_ctx.copy()
    current_run_ctx.update({"__execution_context__": {},
                            "__yielded_values_stream__": []})
    current_run_ctx['query'] = inp -/
def initCtx (base : Ctx V) (inp : PVal V) : Ctx V :=
  ctxSet (ctxSet (ctxSet base "__execution_context__" .emptydict)
    yieldKey (.vlist [])) "query" inp

/-- One input's whole traversal, from its fresh environment. -/
def inputTraversal (ev : PyEval V) (base : Ctx V) (entry : Node) (inp : PVal V) :
    Except PyErr (Ctx V × Option (PVal V)) :=
  traverse ev entry (initCtx base inp)

/-- The body of `GraphExecutor.run`'s `for` loop for one input: traverse,
then append this input's result to `results` — the yielded-value stream if
it is non-empty (checked at a `ReturnNode`), the return value otherwise;
an input whose traversal fell off the end contributes its stream only when
the stream is truthy *and the whole batch has produced no result yet*
(`if not current_node and current_run_ctx[…] and not results`). -/
def processInput (ev : PyEval V) (base : Ctx V) (entry : Node)
    (results : List (PVal V)) (inp : PVal V) : Except PyErr (List (PVal V)) := do
  let (ctxF, outcome) ← inputTraversal ev base entry inp
  match outcome with
  | some rv =>
      match ctxF yieldKey with
      | none => throw (.keyError yieldKey)
      | some s => if pvalTruthy ev s then pure (results ++ [s]) else pure (results ++ [rv])
  | none =>
      match ctxF yieldKey with
      | none => throw (.keyError yieldKey)
      | some s =>
          if pvalTruthy ev s && results.isEmpty then pure (results ++ [s]) else pure results

/-- The `for i, inp in enumerate(inputs)` loop of `GraphExecutor.run`. -/
def runAux (ev : PyEval V) (base : Ctx V) (entry : Node) :
    List (PVal V) → List (PVal V) → Except PyErr (List (PVal V))
  | [], results => pure results
  | inp :: rest, results => do
      let results' ← processInput ev base entry results inp
      runAux ev base entry rest results'

/-- `GraphExecutor.run(inputs)`: process each input in order against the
shared base environment, then `return results[0] if len(results) == 1
else results`.  An uncaught exception from any input propagates out of
`run` (there is no `try`/`except` in the loop). -/
def run (ev : PyEval V) (base : Ctx V) (entry : Node) (inputs : List (PVal V)) :
    Except PyErr (PVal V) := do
  let results ← runAux ev base entry inputs []
  match results with
  | [r] => pure r
  | rs => pure (.vlist rs)

/-- `Graph.optimize` (from `vagents/executor/graph.py`, which is not under
`src/`).  Modelled from the spec: "Fusion Optimizer — Contract:
`optimize(graph) -> graph`" applied by the executor's constructor; the
repository's tests (`test_graph.py`) show `optimize` applies the
registered await-sequence fusion, i.e. `apply_optimizations`. -/
def Graph.optimize (g : Graph) : Graph := apply_optimizations g

end Vagents

namespace Vagents

/-- **C10.** Executing a `BreakNode` returns exactly the target step stored
in the node and leaves the binding environment completely unchanged — no
name is added, removed, or rebound; accordingly the traversal loop
continues from the target with the identical environment. -/
theorem breakExecute_frame {V : Type} (ev : PyEval V) (target : Node) (ctx : Ctx V) :
    (breakExecute target ctx).2 = target ∧
    (∀ n, (breakExecute target ctx).1 n = ctx n) ∧
    traverse ev (.brk target) ctx = traverse ev target ctx :=
  ⟨rfl, fun _ => rfl, rfl⟩

/-- **C8.** (a) An executed `YieldNode` whose expression evaluates to `v`
in an environment whose `__yielded_values_stream__` slot holds the list
`xs` appends `v` to that slot (append-only: the new slot is `xs ++ [v]`),
leaves every other binding as evaluation left it, and transfers control to
its successor.  (b) If an input's traversal ends at a `ReturnNode` with a
non-empty collected stream `ys` (the observable trace of at least one
fired `YieldStep`), `run` reports the ordered stream `ys` — not the return
value — as that input's result. -/
theorem yield_semantics {V : Type} (ev : PyEval V) (src : Str) (next : Node)
    (base : Ctx V) (entry : Node) (results : List (PVal V)) (inp : PVal V) :
    (∀ (ctx ctx1 : Ctx V) (v : PVal V) (xs : List (PVal V)),
      ev.evalExpr src ctx = .ok (v, ctx1) →
      ctx1 yieldKey = some (.vlist xs) →
      yieldExecute ev src next ctx =
        .ok (ctxSet ctx1 yieldKey (.vlist (xs ++ [v])), next) ∧
      (∀ n, n ≠ yieldKey → ctxSet ctx1 yieldKey (.vlist (xs ++ [v])) n = ctx1 n)) ∧
    (∀ (ctxF : Ctx V) (rv : PVal V) (ys : List (PVal V)),
      inputTraversal ev base entry inp = .ok (ctxF, some rv) →
      ctxF yieldKey = some (.vlist ys) → ys ≠ [] →
      processInput ev base entry results inp = .ok (results ++ [.vlist ys])) := by
  constructor
  · intro ctx ctx1 v xs h1 h2
    constructor
    · simp only [yieldExecute, yieldUpdate, h1, bind, Except.bind, h2, Option.isSome_some,
        if_true, pure, Except.pure]
    · intro n hn
      simp [ctxSet, hn]
  · intro ctxF rv ys h1 h2 hys
    have htr : pvalTruthy ev (.vlist ys) = true := by
      simp [pvalTruthy, hys]
    simp only [processInput, h1, bind, Except.bind, h2, htr, if_true, pure, Except.pure]

end Vagents

namespace Vagents

/-- A concrete oracle for witnesses: every expression fragment evaluates to
the object `7` without touching the environment; statements are no-ops. -/
def evConst : PyEval Nat :=
  { evalExpr := fun _ ctx => .ok (.obj 7, ctx)
    execAction := fun _ ctx => .ok ctx
    truthy := fun v => decide (v ≠ 0) }

/-- Witness for C8 on a concrete graph `yield e; return None` under
`evConst`: the yield appends the evaluated value `7` to the (initially
empty) stream and hands control to the return step, and the input's
reported result is the one-element stream rather than the `None` return
value. -/
theorem yield_semantics_witness :
    evConst.evalExpr (str "e") (initCtx emptyCtx .pynone)
      = .ok (.obj 7, initCtx emptyCtx .pynone) ∧
    (initCtx (V := Nat) emptyCtx .pynone) yieldKey = some (.vlist []) ∧
    yieldExecute evConst (str "e") (.ret none) (initCtx emptyCtx .pynone) =
      .ok (ctxSet (initCtx emptyCtx .pynone) yieldKey (.vlist [.obj 7]), .ret none) ∧
    processInput evConst emptyCtx (.yld (str "e") (.ret none)) [] .pynone =
      .ok [.vlist [.obj 7]] := by
  refine ⟨rfl, rfl, ?_, ?_⟩
  · exact ((yield_semantics evConst (str "e") (.ret none) emptyCtx
      (.yld (str "e") (.ret none)) [] .pynone).1
      (initCtx emptyCtx .pynone) (initCtx emptyCtx .pynone) (.obj 7) [] rfl rfl).1
  · have := (yield_semantics evConst (str "e") (.ret none) emptyCtx
      (.yld (str "e") (.ret none)) [] .pynone).2
      (ctxSet (initCtx emptyCtx .pynone) yieldKey (.vlist [.obj 7])) .pynone [.obj 7]
      rfl rfl (by simp)
    simpa using this

/-- Modelled from the spec: the Binding Environment is seeded with "the
current input value bound under the routine's declared parameter name"
(spec §3, item (5)); identical to the executor's `initCtx` except that the
input is bound under the routine's parameter name instead of a fixed
name. -/
def initCtxSpec (paramName : String) (base : Ctx V) (inp : PVal V) : Ctx V :=
  ctxSet (ctxSet (ctxSet base "__execution_context__" .emptydict)
    yieldKey (.vlist [])) paramName inp

/-- Counterexample for C9 as stated: for a routine whose declared
parameter is named `data`, the executor's fresh environment does not bind
the input under `data` (the spec-worded seeding does); the code binds it
under the fixed name `query` instead. -/
theorem initCtx_param_binding_counterexample :
    initCtx (V := Nat) emptyCtx (.obj 3) "data" = none ∧
    initCtxSpec (V := Nat) "data" emptyCtx (.obj 3) "data" = some (.obj 3) ∧
    initCtx (V := Nat) emptyCtx (.obj 3) "query" = some (.obj 3) :=
  ⟨rfl, rfl, rfl⟩

/-- **C9 (amended).** Every input processed by `GraphExecutor.run`
executes in a fresh environment obtained by copying the shared base
bindings and binding the input under the fixed name `query` (not the
routine's declared parameter name): the fresh environment maps `query` to
the input; any name outside the base bindings and the three reserved slots
is absent from it (in particular any name first bound while executing a
different input); and what an input contributes to the batch — its error,
or its appended result — is a function of the shared base, the graph and
that input alone, never of the mutated environments of other inputs. -/
theorem fresh_env_per_input {V : Type} (ev : PyEval V) (base : Ctx V) (entry : Node)
    (inp : PVal V) (n : String) :
    (initCtx base inp "query" = some inp) ∧
    (base n = none → n ≠ "query" → n ≠ "__execution_context__" → n ≠ yieldKey →
      initCtx base inp n = none) ∧
    (∀ e, inputTraversal ev base entry inp = .error e →
      ∀ results, processInput ev base entry results inp = .error e) ∧
    (∀ ctxF rv s, inputTraversal ev base entry inp = .ok (ctxF, some rv) →
      ctxF yieldKey = some s →
      ∀ results, processInput ev base entry results inp =
        .ok (results ++ [if pvalTruthy ev s then s else rv])) := by
  refine ⟨rfl, ?_, ?_, ?_⟩
  · intro hb hq he hy
    simp [initCtx, ctxSet, hb, hq, he, hy]
  · intro e herr results
    simp [processInput, herr, bind, Except.bind]
  · intro ctxF rv s h1 h2 results
    by_cases ht : pvalTruthy ev s = true
    · simp [processInput, h1, h2, ht, bind, Except.bind, pure, Except.pure]
    · simp only [Bool.not_eq_true] at ht
      simp [processInput, h1, h2, ht, bind, Except.bind, pure, Except.pure]

/-- Witness for C9 on concrete data: the fresh environment for the input
`3` binds `query`, leaves the fresh name `tmp` unbound, and the input's
contribution (`return None`, no yields) is `None` appended after any
previously accumulated results. -/
theorem fresh_env_per_input_witness :
    (emptyCtx (V := Nat) "tmp" = none) ∧
    initCtx (V := Nat) emptyCtx (.obj 3) "query" = some (.obj 3) ∧
    initCtx (V := Nat) emptyCtx (.obj 3) "tmp" = none ∧
    (∀ results, processInput evConst emptyCtx (.ret none) results (.obj 3) =
      .ok (results ++ [.pynone])) := by
  refine ⟨rfl, ?_, ?_, ?_⟩
  · exact (fresh_env_per_input evConst emptyCtx (.ret none) (.obj 3) "tmp").1
  · exact (fresh_env_per_input evConst emptyCtx (.ret none) (.obj 3) "tmp").2.1
      rfl (by decide) (by decide) (by decide)
  · intro results
    have := (fresh_env_per_input evConst emptyCtx (.ret none) (.obj 3) "tmp").2.2.2
      (initCtx emptyCtx (.obj 3)) .pynone (.vlist []) rfl rfl results
    simpa using this

end Vagents

namespace Vagents

/-- A concrete oracle for counterexamples and witnesses: the fragment
`query` evaluates to the value bound to `query`; the statement fragment
`check(query)` raises a `NameError` (an unresolved name inside the
fragment) exactly when `query` is bound to the object `2`; anything else
raises. -/
def evDemo : PyEval Nat :=
  { evalExpr := fun src ctx =>
      if src = str "query" then
        match ctx "query" with
        | some v => .ok (v, ctx)
        | none => .error (.nameError "query")
      else .error (.stepError "fragment")
    execAction := fun src ctx =>
      if src = str "check(query)" then
        match ctx "query" with
        | some (.obj 2) => .error (.nameError "lookup_table")
        | some _ => .ok ctx
        | none => .error (.nameError "query")
      else .error (.stepError "fragment")
    truthy := fun v => decide (v ≠ 0) }

/-- The result an input contributes to the batch when its traversal
reaches a `ReturnNode` with the stream slot intact: the yielded stream if
truthy, the return value otherwise.  `none` when the input's traversal
errors, falls off the end, or lost the stream slot. -/
def returnedResult (ev : PyEval V) (base : Ctx V) (entry : Node) (inp : PVal V) :
    Option (PVal V) :=
  match inputTraversal ev base entry inp with
  | .ok (ctxF, some rv) =>
      match ctxF yieldKey with
      | some s => some (if pvalTruthy ev s then s else rv)
      | none => none
  | _ => none

/-- An input with a defined `returnedResult` appends exactly that value,
whatever results were accumulated before it. -/
lemma processInput_append {V : Type} {ev : PyEval V} {base : Ctx V} {entry : Node}
    {inp : PVal V} {r : PVal V}
    (h : returnedResult ev base entry inp = some r) (results : List (PVal V)) :
    processInput ev base entry results inp = .ok (results ++ [r]) := by
  unfold returnedResult at h
  rcases htr : inputTraversal ev base entry inp with e | ⟨ctxF, outcome⟩
  · simp only [htr] at h
    exact Option.noConfusion h
  · simp only [htr] at h
    cases outcome with
    | none => simp at h
    | some rv =>
        rcases hkey : ctxF yieldKey with _ | s
        · simp only [hkey] at h
          exact Option.noConfusion h
        · simp only [hkey, Option.some.injEq] at h
          subst h
          by_cases ht : pvalTruthy ev s = true
          · simp [processInput, htr, hkey, ht, bind, Except.bind, pure, Except.pure]
          · simp only [Bool.not_eq_true] at ht
            simp [processInput, htr, hkey, ht, bind, Except.bind, pure, Except.pure]

/-- Accumulator form of the `run` loop: when every input has a defined
`returnedResult`, the loop appends them in input order. -/
lemma runAux_map {V : Type} {ev : PyEval V} {base : Ctx V} {entry : Node}
    {inputs : List (PVal V)}
    (h : ∀ inp ∈ inputs, (returnedResult ev base entry inp).isSome) :
    ∀ results, runAux ev base entry inputs results =
      .ok (results ++ inputs.map (fun inp => (returnedResult ev base entry inp).getD .pynone)) := by
  induction inputs with
  | nil => intro results; simp [runAux, pure, Except.pure]
  | cons a rest ih =>
      intro results
      have ha := h a (by simp)
      rcases Option.isSome_iff_exists.mp ha with ⟨r, hr⟩
      rw [runAux, processInput_append hr]
      have := ih (fun inp hi => h inp (by simp [hi])) (results ++ [r])
      simp only [bind, Except.bind]
      rw [this]
      simp [hr]

/-- **C3 (amended).** When every input's traversal terminates at a
`ReturnNode` (with the reserved stream slot intact), the batch loop of
`GraphExecutor.run` produces exactly one result per input, the result of
input `i` at position `i`; `run` returns that sequence for input lists of
length 0 or ≥ 2, but for a single-input list it returns that input's bare
result instead of a one-element sequence
(`return results[0] if len(results) == 1 else results`). -/
theorem run_batch_order {V : Type} (ev : PyEval V) (base : Ctx V) (entry : Node)
    (inputs : List (PVal V))
    (h : ∀ inp ∈ inputs, (returnedResult ev base entry inp).isSome) :
    runAux ev base entry inputs [] =
      .ok (inputs.map (fun inp => (returnedResult ev base entry inp).getD .pynone)) ∧
    (inputs.map (fun inp => (returnedResult ev base entry inp).getD .pynone)).length
      = inputs.length ∧
    (inputs.length ≠ 1 →
      run ev base entry inputs =
        .ok (.vlist (inputs.map (fun inp => (returnedResult ev base entry inp).getD .pynone)))) ∧
    (∀ x, inputs = [x] →
      run ev base entry inputs = .ok ((returnedResult ev base entry x).getD .pynone)) := by
  have haux := runAux_map h []
  simp only [List.nil_append] at haux
  refine ⟨haux, List.length_map _ _, ?_, ?_⟩
  · intro hlen
    rcases hm : inputs.map (fun inp => (returnedResult ev base entry inp).getD .pynone)
      with _ | ⟨r1, _ | ⟨r2, tl⟩⟩
    · simp only [run, bind, Except.bind, haux, hm]
      rfl
    · exfalso
      apply hlen
      have : (inputs.map (fun inp => (returnedResult ev base entry inp).getD .pynone)).length
          = 1 := by rw [hm]; rfl
      rwa [List.length_map] at this
    · simp only [run, bind, Except.bind, haux, hm]
      rfl
  · intro x hx
    subst hx
    simp only [run, bind, Except.bind, haux, List.map_cons, List.map_nil]
    rfl

/-- Counterexample for C3 as stated: a one-input batch does not return a
one-element sequence; `run` unwraps it to the bare result. -/
theorem run_single_input_unwraps :
    run evDemo emptyCtx (.ret (some (str "query"))) [.obj 5] = .ok (.obj 5) ∧
    run evDemo emptyCtx (.ret (some (str "query"))) [.obj 5] ≠
      .ok (.vlist [.obj 5]) := by
  constructor
  · rfl
  · rw [show run evDemo emptyCtx (.ret (some (str "query"))) [.obj 5]
        = .ok (.obj 5) from rfl]
    simp

/-- Witness for C3 (amended) on a two-input batch under `evDemo`: both
results are present, in input order. -/
theorem run_batch_order_witness :
    run evDemo emptyCtx (.ret (some (str "query"))) [.obj 5, .obj 6]
      = .ok (.vlist [.obj 5, .obj 6]) := by
  have h : ∀ inp ∈ ([.obj 5, .obj 6] : List (PVal Nat)),
      (returnedResult evDemo emptyCtx (.ret (some (str "query"))) inp).isSome := by
    intro inp hi
    simp only [List.mem_cons, List.not_mem_nil, or_false] at hi
    rcases hi with hh | hh <;> subst hh <;> rfl
  have := (run_batch_order evDemo emptyCtx (.ret (some (str "query")))
    [.obj 5, .obj 6] h).2.2.1 (by simp)
  simpa using this

end Vagents

namespace Vagents

/-- An error in one input's traversal is the per-input loop body's result,
whatever was accumulated before. -/
lemma processInput_error {V : Type} {ev : PyEval V} {base : Ctx V} {entry : Node}
    {inp : PVal V} {e : PyErr}
    (herr : inputTraversal ev base entry inp = .error e) (results : List (PVal V)) :
    processInput ev base entry results inp = .error e := by
  simp [processInput, herr, bind, Except.bind]

/-- **C2 (amended).** A `BindingError` (`NameError`) or
`StepEvaluationError` raised while evaluating a fragment for one input of
a batch propagates out of `GraphExecutor.run` and aborts the whole batch:
the loop has no exception handler, so the results of inputs processed
before the failing one are discarded and the inputs after it are never
executed (the error is the same whatever follows the failing input).
What *is* isolated is the environment: each input's traversal runs in its
own fresh environment derived from the shared base only, so the failure
does not corrupt other inputs — re-running any non-failing input by
itself still yields its correct result. -/
theorem error_aborts_batch {V : Type} (ev : PyEval V) (base : Ctx V) (entry : Node)
    (pre : List (PVal V)) (inp : PVal V) (e : PyErr)
    (hpre : ∀ p ∈ pre, (returnedResult ev base entry p).isSome)
    (herr : inputTraversal ev base entry inp = .error e) :
    (∀ results, processInput ev base entry results inp = .error e) ∧
    (∀ post, run ev base entry (pre ++ inp :: post) = .error e) ∧
    (∀ p ∈ pre, run ev base entry [p] = .ok ((returnedResult ev base entry p).getD .pynone)) := by
  refine ⟨processInput_error herr, ?_, ?_⟩
  · have key : ∀ (l : List (PVal V)), (∀ p ∈ l, (returnedResult ev base entry p).isSome) →
        ∀ (results : List (PVal V)) (post : List (PVal V)),
        runAux ev base entry (l ++ inp :: post) results = .error e := by
      intro l
      induction l with
      | nil =>
          intro _ results post
          simp [runAux, processInput_error herr, bind, Except.bind]
      | cons a rest ih =>
          intro hl results post
          rcases Option.isSome_iff_exists.mp (hl a (by simp)) with ⟨r, hr⟩
          rw [List.cons_append, runAux, processInput_append hr]
          simp only [bind, Except.bind]
          exact ih (fun p hp => hl p (by simp [hp])) (results ++ [r]) post
    intro post
    simp [run, key pre hpre [] post, bind, Except.bind]
  · intro p hp
    rcases Option.isSome_iff_exists.mp (hpre p hp) with ⟨r, hr⟩
    have h1 : runAux ev base entry [p] [] = .ok [r] := by
      rw [show ([p] : List (PVal V)) = [p] from rfl, runAux, processInput_append hr]
      simp [runAux, bind, Except.bind, pure, Except.pure]
    simp [run, h1, bind, Except.bind, hr, pure, Except.pure]

/-- Counterexample for C2 as stated: under `evDemo` (where fragment
evaluation raises a `NameError` exactly for the input `2`), the 3-input
batch `[1, 2, 3]` produces *no* results — `run` raises — even though
inputs `1` and `3` each produce a correct result when run on their own;
the batch does not report partial success. -/
theorem error_isolation_counterexample :
    run evDemo emptyCtx (.action (str "check(query)") (.ret (some (str "query"))))
      [.obj 1, .obj 2, .obj 3] = .error (.nameError "lookup_table") ∧
    run evDemo emptyCtx (.action (str "check(query)") (.ret (some (str "query"))))
      [.obj 1] = .ok (.obj 1) ∧
    run evDemo emptyCtx (.action (str "check(query)") (.ret (some (str "query"))))
      [.obj 3] = .ok (.obj 3) :=
  ⟨rfl, rfl, rfl⟩

/-- Witness for C2 (amended): with input `2` failing between inputs `1`
and `3`, `run` propagates the `NameError` for the whole batch, and
re-running the earlier input alone still yields its correct result. -/
theorem error_aborts_batch_witness :
    inputTraversal evDemo emptyCtx
      (.action (str "check(query)") (.ret (some (str "query")))) (.obj 2)
      = .error (.nameError "lookup_table") ∧
    run evDemo emptyCtx (.action (str "check(query)") (.ret (some (str "query"))))
      ([.obj 1] ++ .obj 2 :: [.obj 3]) = .error (.nameError "lookup_table") ∧
    run evDemo emptyCtx (.action (str "check(query)") (.ret (some (str "query"))))
      [.obj 1] = .ok (.obj 1) := by
  have hpre : ∀ p ∈ ([.obj 1] : List (PVal Nat)),
      (returnedResult evDemo emptyCtx
        (.action (str "check(query)") (.ret (some (str "query")))) p).isSome := by
    intro p hp
    simp only [List.mem_singleton] at hp
    subst hp; rfl
  refine ⟨rfl, ?_, ?_⟩
  · exact (error_aborts_batch evDemo emptyCtx
      (.action (str "check(query)") (.ret (some (str "query"))))
      [.obj 1] (.obj 2) (.nameError "lookup_table") hpre rfl).2.1 [.obj 3]
  · have := (error_aborts_batch evDemo emptyCtx
      (.action (str "check(query)") (.ret (some (str "query"))))
      [.obj 1] (.obj 2) (.nameError "lookup_table") hpre rfl).2.2 (.obj 1) (by simp)
    simpa using this

end Vagents

namespace Vagents

/-! ## The priority task executor (`vagents/core/executor.py`)

`LMExecutor` keeps a waiting `asyncio.PriorityQueue` of
`(priority, counter, task)` tuples, a `_task_futures` dict mapping tasks
to their futures, and a monotone `_task_counter`.  The `asyncio`
primitives are modelled by their documented semantics: a priority queue
pops the least tuple (with distinct counters the task component never
gets compared); futures are settled at most once.  The run loop is
single-consumer, so one loop iteration is modelled as an atomic step;
the state of a task at pop time (`task.done()`) and its outcome when
awaited are supplied by oracles `ts` and `fin`.  The `_running` queue is
touched only by the loop itself — one `put_nowait` cancelled by one `get`
per iteration — and therefore has no observable effect on the modelled
state. -/

/-- The outcome of a finished `asyncio.Task`. -/
inductive Outcome (V : Type) where
  | cancelled
  | failed (e : PyErr)
  | ok (v : V)
deriving DecidableEq, Repr

/-- The state of an `asyncio.Task` as the executor observes it
(`task.done()` plus the recorded outcome). -/
inductive TaskSt (V : Type) where
  | running
  | done (o : Outcome V)
deriving DecidableEq, Repr

/-- The state of an `asyncio.Future`. -/
inductive FutState (V : Type) where
  | pending
  | cancelled
  | failed (e : PyErr)
  | resolved (v : V)
deriving DecidableEq, Repr

/-- One waiting-queue entry `(priority, counter, task)`. -/
structure WaitEntry where
  priority : Int
  counter : Nat
  tid : Nat
deriving DecidableEq, Repr

/-- The executor's internal state: the waiting queue contents, the
submission counter `_task_counter`, and the `_task_futures` mapping. -/
structure ExecState (V : Type) where
  waiting : List WaitEntry
  counter : Nat
  futures : List (Nat × FutState V)

/-- Lookup in `_task_futures`. -/
def futLookup (fs : List (Nat × FutState V)) (t : Nat) : Option (FutState V) :=
  match fs with
  | [] => none
  | (u, f) :: rest => if t = u then some f else futLookup rest t

/-- `dict.pop`: remove every mapping of `t`. -/
def futRemove (fs : List (Nat × FutState V)) (t : Nat) : List (Nat × FutState V) :=
  match fs with
  | [] => []
  | (u, f) :: rest => if t = u then futRemove rest t else (u, f) :: futRemove rest t

/-- `self._task_futures[task] = future` (overwrite). -/
def futInsert (fs : List (Nat × FutState V)) (t : Nat) (f : FutState V) :
    List (Nat × FutState V) :=
  futRemove fs t ++ [(t, f)]

/-- The completion signal matching a task outcome: cancellation cancels
the future, an exception is set as the future's exception, a value as its
result. -/
def resolveMatching : Outcome V → FutState V
  | .cancelled => .cancelled
  | .failed e => .failed e
  | .ok v => .resolved v

/-- What `enqueue` returns and leaves behind. -/
structure EnqueueResult (V : Type) where
  state : ExecState V
  future : FutState V
  queued : Bool

/-- `LMExecutor.enqueue(task, priority)`: a task that is already done gets
a fresh future resolved immediately from the task's recorded outcome and
is *not* queued (state unchanged); otherwise a pending future is mapped to
the task, the counter is bumped, and `(priority, counter, task)` joins the
waiting queue (`put_nowait` on an unbounded queue cannot fail, so the
exception branch of `enqueue` is dead code). -/
def enqueue (ts : Nat → TaskSt V) (st : ExecState V) (t : Nat) (pri : Int) :
    EnqueueResult V :=
  match ts t with
  | .done o => ⟨st, resolveMatching o, false⟩
  | .running =>
      let c := st.counter + 1
      ⟨{ waiting := st.waiting ++ [⟨pri, c, t⟩]
         counter := c
         futures := futInsert st.futures t .pending }, .pending, true⟩

/-- Lexicographic `(priority, counter)` comparison of queue entries
(Python tuple comparison; with pairwise distinct counters the task
component is never compared). -/
def entryLe (a b : WaitEntry) : Bool :=
  decide (a.priority < b.priority) ||
    (decide (a.priority = b.priority) && decide (a.counter ≤ b.counter))

/-- The least entry of `e :: l` under `entryLe`. -/
def minEntry (e : WaitEntry) : List WaitEntry → WaitEntry
  | [] => e
  | x :: xs => minEntry (if entryLe e x then e else x) xs

/-- `asyncio.PriorityQueue.get`: pop the least `(priority, counter)`
entry (min-heap semantics). -/
def popMin : List WaitEntry → Option (WaitEntry × List WaitEntry)
  | [] => none
  | x :: xs => some (minEntry x xs, (x :: xs).erase (minEntry x xs))

/-- A completion signal delivered to the future of task `tid`. -/
structure Event (V : Type) where
  tid : Nat
  signal : FutState V
deriving DecidableEq, Repr

/-- The future-resolution epilogue shared by both branches of the run
loop: pop the task's mapping from `_task_futures` and, if the future is
still pending (`if not future.done()`), deliver the signal matching the
task's outcome.  A missing mapping or an already-settled future delivers
nothing. -/
def deliver (fs : List (Nat × FutState V)) (t : Nat) (o : Outcome V) :
    List (Nat × FutState V) × List (Event V) :=
  match futLookup fs t with
  | none => (fs, [])
  | some .pending => (futRemove fs t, [⟨t, resolveMatching o⟩])
  | some _ => (futRemove fs t, [])

/-- What one run-loop iteration produced. -/
structure StepResult (V : Type) where
  state : ExecState V
  events : List (Event V)
  dispatched : Option WaitEntry

/-- One iteration of `LMExecutor.run`: pop the least `(priority, counter)`
waiting entry; if the popped task is already done, resolve its future from
its recorded outcome and continue; otherwise await it to completion
(outcome `fin tid`), take it back out of `_running`, and resolve its
future.  An empty queue is the `asyncio.TimeoutError` branch: the loop
idles and re-checks without changing state. -/
def runStep (ts : Nat → TaskSt V) (fin : Nat → Outcome V) (st : ExecState V) :
    StepResult V :=
  match popMin st.waiting with
  | none => ⟨st, [], none⟩
  | some (e, rest) =>
      let o := match ts e.tid with
        | .done o => o
        | .running => fin e.tid
      let p := deliver st.futures e.tid o
      ⟨⟨rest, st.counter, p.1⟩, p.2, some e⟩

/-- After removal, a task has no `_task_futures` mapping left. -/
lemma futLookup_futRemove (fs : List (Nat × FutState V)) (t : Nat) :
    futLookup (futRemove fs t) t = none := by
  induction fs with
  | nil => rfl
  | cons p rest ih =>
      rcases p with ⟨u, f⟩
      by_cases h : t = u
      · subst h; simp [futRemove, futLookup, ih]
      · simp [futRemove, futLookup, h, ih]

end Vagents

namespace Vagents

lemma entryLe_refl (a : WaitEntry) : entryLe a a = true := by
  simp [entryLe]

lemma entryLe_trans {a b c : WaitEntry} (h1 : entryLe a b = true)
    (h2 : entryLe b c = true) : entryLe a c = true := by
  simp only [entryLe, Bool.or_eq_true, Bool.and_eq_true, decide_eq_true_eq] at h1 h2 ⊢
  omega

lemma entryLe_total (a b : WaitEntry) : entryLe a b = true ∨ entryLe b a = true := by
  simp only [entryLe, Bool.or_eq_true, Bool.and_eq_true, decide_eq_true_eq]
  omega

lemma minEntry_mem (e : WaitEntry) (l : List WaitEntry) : minEntry e l ∈ e :: l := by
  induction l generalizing e with
  | nil => simp [minEntry]
  | cons x xs ih =>
      rw [minEntry]
      have h := ih (if entryLe e x then e else x)
      by_cases hc : entryLe e x = true
      · rw [if_pos hc] at h ⊢
        rcases List.mem_cons.mp h with h1 | h1
        · rw [h1]; exact List.mem_cons_self _ _
        · exact List.mem_cons_of_mem _ (List.mem_cons_of_mem _ h1)
      · rw [if_neg hc] at h ⊢
        rcases List.mem_cons.mp h with h1 | h1
        · rw [h1]; exact List.mem_cons_of_mem _ (List.mem_cons_self _ _)
        · exact List.mem_cons_of_mem _ (List.mem_cons_of_mem _ h1)

lemma minEntry_le (e : WaitEntry) (l : List WaitEntry) :
    ∀ w ∈ e :: l, entryLe (minEntry e l) w = true := by
  induction l generalizing e with
  | nil =>
      intro w hw
      simp only [List.mem_cons, List.not_mem_nil, or_false] at hw
      subst hw
      exact entryLe_refl _
  | cons x xs ih =>
      intro w hw
      rw [minEntry]
      have hme : entryLe (if entryLe e x then e else x) e = true := by
        by_cases hc : entryLe e x = true
        · rw [if_pos hc]; exact entryLe_refl e
        · rw [if_neg hc]
          rcases entryLe_total e x with h | h
          · exact absurd h hc
          · exact h
      have hmx : entryLe (if entryLe e x then e else x) x = true := by
        by_cases hc : entryLe e x = true
        · rw [if_pos hc]; exact hc
        · rw [if_neg hc]; exact entryLe_refl x
      have hm_self : entryLe (minEntry (if entryLe e x then e else x) xs)
          (if entryLe e x then e else x) = true :=
        ih _ _ (List.mem_cons_self _ _)
      rcases List.mem_cons.mp hw with h1 | h1
      · subst h1; exact entryLe_trans hm_self hme
      · rcases List.mem_cons.mp h1 with h2 | h2
        · subst h2; exact entryLe_trans hm_self hmx
        · exact ih _ _ (List.mem_cons_of_mem _ h2)

/-- **C4.** Exactly one completion signal per work item, matching the
item's outcome: submitting an already-done task returns a future resolved
immediately from the task's recorded outcome (cancellation → cancelled,
exception → exception, value → result) without queuing it and without
touching the executor state; a run-loop iteration that pops a task whose
future is still pending delivers exactly one signal, matching the task's
outcome (its recorded outcome when already done at pop time, otherwise the
outcome of awaiting it), and removes the task's future mapping so no
further signal can ever be delivered; if the task has no pending mapping,
no signal is delivered at all. -/
theorem task_completion_unique {V : Type} (ts : Nat → TaskSt V) (fin : Nat → Outcome V)
    (st : ExecState V) (t : Nat) (pri : Int) (o : Outcome V) :
    (ts t = .done o → enqueue ts st t pri = ⟨st, resolveMatching o, false⟩) ∧
    (∀ e rest, popMin st.waiting = some (e, rest) →
      futLookup st.futures e.tid = some .pending →
      (runStep ts fin st).events =
        [⟨e.tid, resolveMatching (match ts e.tid with
          | .done u => u
          | .running => fin e.tid)⟩] ∧
      futLookup (runStep ts fin st).state.futures e.tid = none) ∧
    (∀ e rest, popMin st.waiting = some (e, rest) →
      futLookup st.futures e.tid = none → (runStep ts fin st).events = []) := by
  refine ⟨?_, ?_, ?_⟩
  · intro h
    simp [enqueue, h]
  · intro e rest hpop hfut
    constructor
    · simp [runStep, hpop, deliver, hfut]
    · simp [runStep, hpop, deliver, hfut, futLookup_futRemove]
  · intro e rest hpop hfut
    simp [runStep, hpop, deliver, hfut]

/-- **C5.** The run loop always pops the waiting entry with the least
`(priority, sequence)` pair: the dispatched entry is a waiting entry that
is lexicographically least — strictly smaller priority value first, ties
broken by the submission counter — and `enqueue` gives each queued
submission the strictly increased counter `counter + 1`, so counters
strictly increase with each submission and equal-priority entries are
dispatched in submission (FIFO) order. -/
theorem priority_fifo_dispatch {V : Type} (ts : Nat → TaskSt V) (fin : Nat → Outcome V)
    (st : ExecState V) (t : Nat) (pri : Int) :
    (ts t = .running →
      (enqueue ts st t pri).state.counter = st.counter + 1 ∧
      (enqueue ts st t pri).state.waiting = st.waiting ++ [⟨pri, st.counter + 1, t⟩] ∧
      ((∀ w ∈ st.waiting, w.counter ≤ st.counter) →
        ∀ w ∈ st.waiting, w.counter < st.counter + 1)) ∧
    (∀ e rest, popMin st.waiting = some (e, rest) →
      e ∈ st.waiting ∧
      (runStep ts fin st).dispatched = some e ∧
      ∀ w ∈ st.waiting, e.priority < w.priority ∨
        (e.priority = w.priority ∧ e.counter ≤ w.counter)) := by
  constructor
  · intro h
    refine ⟨by simp [enqueue, h], by simp [enqueue, h], ?_⟩
    intro hinv w hw
    exact Nat.lt_succ_of_le (hinv w hw)
  · intro e rest hpop
    rcases hwait : st.waiting with _ | ⟨x, xs⟩
    · rw [hwait] at hpop
      exact Option.noConfusion hpop
    · rw [hwait] at hpop
      simp only [popMin, Option.some.injEq, Prod.mk.injEq] at hpop
      obtain ⟨he, herase⟩ := hpop
      refine ⟨?_, ?_, ?_⟩
      · rw [← he]
        exact minEntry_mem x xs
      · simp [runStep, popMin, hwait, he, herase]
      · intro w hw
        have := minEntry_le x xs w hw
        rw [he] at this
        simpa only [entryLe, Bool.or_eq_true, Bool.and_eq_true, decide_eq_true_eq]
          using this

end Vagents

namespace Vagents

/-- Task-state oracle for the executor witnesses: task `0` is already done
with value `42`; every other task is still running. -/
def tsW : Nat → TaskSt Nat := fun t => if t = 0 then .done (.ok 42) else .running

/-- Await-outcome oracle for the executor witnesses: every awaited task
fails with an exception. -/
def finW : Nat → Outcome Nat := fun _ => .failed (.stepError "boom")

/-- A concrete executor state with three waiting tasks submitted in the
priority order `[10, 1, 5]` with counters `1, 2, 3`. -/
def stW : ExecState Nat :=
  { waiting := [⟨10, 1, 1⟩, ⟨1, 2, 2⟩, ⟨5, 3, 3⟩]
    counter := 3
    futures := [(1, .pending), (2, .pending), (3, .pending)] }

/-- Witness for C4: enqueueing the already-done task `0` returns a future
resolved with `42` and does not queue it; one run-loop step pops task `2`
(whose future is pending), delivers exactly its failure outcome to its
future, and removes its mapping. -/
theorem task_completion_unique_witness :
    tsW 0 = .done (.ok 42) ∧
    enqueue tsW stW 0 7 = ⟨stW, .resolved 42, false⟩ ∧
    futLookup stW.futures 2 = some .pending ∧
    (runStep tsW finW stW).events = [⟨2, .failed (.stepError "boom")⟩] ∧
    futLookup (runStep tsW finW stW).state.futures 2 = none := by
  have h := task_completion_unique tsW finW stW 0 7 (.ok 42)
  have h2 := (h.2.1 ⟨1, 2, 2⟩ [⟨10, 1, 1⟩, ⟨5, 3, 3⟩] rfl rfl)
  exact ⟨rfl, h.1 rfl, rfl, h2.1, h2.2⟩

/-- Witness for C5: a queued submission gets counter `4 = 3 + 1`, and the
run loop dispatches the waiting entry `(1, 2)` — least priority value,
submitted second — ahead of entries `(10, 1)` and `(5, 3)`. -/
theorem priority_fifo_dispatch_witness :
    tsW 9 = .running ∧
    (enqueue tsW stW 9 7).state.counter = 4 ∧
    (enqueue tsW stW 9 7).state.waiting = stW.waiting ++ [⟨7, 4, 9⟩] ∧
    (runStep tsW finW stW).dispatched = some ⟨1, 2, 2⟩ ∧
    (⟨1, 2, 2⟩ : WaitEntry) ∈ stW.waiting := by
  have h := priority_fifo_dispatch tsW finW stW 9 7
  have h1 := h.1 rfl
  have h2 := h.2 ⟨1, 2, 2⟩ [⟨10, 1, 1⟩, ⟨5, 3, 3⟩] rfl
  exact ⟨rfl, h1.1, h1.2.1, h2.2.1, h2.1⟩

end Vagents

namespace Vagents

/-! ## The request scheduler (`vagents/executor/scheduler.py`) -/

/-- A scheduled request.  Modelled from the spec: "**Scheduled Request** —
a request identifier, target module name, and payload" (`InRequest` itself
is defined outside the sources under study; `scheduler.py` reads only the
`module` attribute and passes the object through to the executor). -/
structure InRequest (V : Type) where
  id : String
  module : String
  payload : PVal V

/-- A registered module executor: the `GraphExecutor(compiled_graph,
module_instance)` stored by `register_module`, summarised by its
evaluation oracle, its base environment and its (optimized) entry node. -/
structure ExecutorHandle (V : Type) where
  ev : PyEval V
  base : Ctx V
  entry : Node

/-- The scheduler's module registry `self._executors` (the response queue
and finished-request set play no part in the modelled claims). -/
structure VScheduler (V : Type) where
  executors : List (String × ExecutorHandle V)

/-- `self._executors.get(req.module)`. -/
def execLookup (l : List (String × ExecutorHandle V)) (m : String) :
    Option (ExecutorHandle V) :=
  match l with
  | [] => none
  | (n, h) :: rest => if m = n then some h else execLookup rest m

/-- `register_module(name, compiled_graph, instance)`: store the
executor under the module name (dict assignment; the newest binding
wins). -/
def register_module (s : VScheduler V) (name : String) (h : ExecutorHandle V) :
    VScheduler V :=
  ⟨(name, h) :: s.executors⟩

/-- `result_list[0]` applied to whatever `GraphExecutor.run([req])`
returned (which, for a one-element batch, is the bare result — see
`run`). -/
def pyIndex0 : PVal V → Except PyErr (PVal V)
  | .vlist [] => .error (.indexError "list index out of range")
  | .vlist (x :: _) => .ok x
  | _ => .error (.typeError "object is not subscriptable")

/-- `VScheduler._run_single(req)`: look the module up; an unregistered
module raises `RuntimeError("No executor registered for module '…'")`;
otherwise offload `executor.run([req])` to a worker thread and take
`result_list[0]` of the returned value.  `embed` is the Python identity
of passing the request object itself as the executor's single input. -/
def run_single (embed : InRequest V → PVal V) (s : VScheduler V) (req : InRequest V) :
    Except PyErr (PVal V) :=
  match execLookup s.executors req.module with
  | none => .error (.runtimeError
      ("No executor registered for module '" ++ req.module ++ "'"))
  | some h => do
      let r ← run h.ev h.base h.entry [embed req]
      pyIndex0 r

/-- `VScheduler.add_request(req)`: unconditionally create an asyncio task
for `_run_and_enqueue(req)` and return it.  No validation happens at
submission time; the module check runs later, inside the task body
(`_run_single`).  Submission therefore never raises. -/
def add_request (s : VScheduler V) (req : InRequest V) : Except PyErr (InRequest V) :=
  .ok req

/-- Counterexample for C6 as stated: with no module registered,
`add_request` still succeeds — the request *is* scheduled as a task — and
the failure, surfacing only when the task body runs, is a `RuntimeError`,
not a `ModuleNotFoundError`. -/
theorem unregistered_module_counterexample :
    add_request (VScheduler.mk ([] : List (String × ExecutorHandle Nat)))
      ⟨"r1", "mod", .pynone⟩ = .ok ⟨"r1", "mod", .pynone⟩ ∧
    run_single (fun r => r.payload) (VScheduler.mk [])
      (⟨"r1", "mod", .pynone⟩ : InRequest Nat)
      = .error (.runtimeError "No executor registered for module 'mod'") ∧
    (∀ msg, run_single (fun r => r.payload) (VScheduler.mk [])
      (⟨"r1", "mod", .pynone⟩ : InRequest Nat)
      ≠ .error (.moduleNotFoundError msg)) := by
  refine ⟨rfl, rfl, ?_⟩
  intro msg h
  rw [show run_single (fun r => r.payload) (VScheduler.mk [])
      (⟨"r1", "mod", .pynone⟩ : InRequest Nat)
      = .error (.runtimeError "No executor registered for module 'mod'") from rfl] at h
  simp at h

/-- **C6 (amended).** Submitting a request whose module name has no
registered executor does not fail at submission time: `add_request`
always succeeds and schedules the task.  The rejection happens when the
task body runs: `_run_single` raises `RuntimeError("No executor
registered for module '…'")` — never a `ModuleNotFoundError` — so the
request is scheduled first and fails during execution. -/
theorem unregistered_module_rejected {V : Type} (embed : InRequest V → PVal V)
    (s : VScheduler V) (req : InRequest V)
    (h : execLookup s.executors req.module = none) :
    add_request s req = .ok req ∧
    run_single embed s req = .error (.runtimeError
      ("No executor registered for module '" ++ req.module ++ "'")) ∧
    ∀ msg, run_single embed s req ≠ .error (.moduleNotFoundError msg) := by
  refine ⟨rfl, by simp [run_single, h], ?_⟩
  intro msg hcontra
  simp [run_single, h] at hcontra

/-- Witness for C6 (amended) at a concrete empty registry. -/
theorem unregistered_module_rejected_witness :
    execLookup ([] : List (String × ExecutorHandle Nat)) "mod" = none ∧
    add_request (VScheduler.mk ([] : List (String × ExecutorHandle Nat)))
      ⟨"r2", "mod", .pynone⟩ = .ok ⟨"r2", "mod", .pynone⟩ ∧
    run_single (fun r => r.payload) (VScheduler.mk [])
      (⟨"r2", "mod", .pynone⟩ : InRequest Nat)
      = .error (.runtimeError "No executor registered for module 'mod'") := by
  have h := unregistered_module_rejected (V := Nat) (fun r => r.payload)
    (VScheduler.mk []) ⟨"r2", "mod", .pynone⟩ rfl
  exact ⟨rfl, h.1, h.2.1⟩

end Vagents
